import Mathlib

/-!
Shallow embedding of the JBarsa poultry-weighing ledger (`src/src/App.tsx`,
`src/types.ts`, `src/components/WeighingPanel.tsx`).

Weights are modelled as rationals (idealising IEEE doubles), crate and bird
counts as integers (the UI inputs use `step="1"` form validation), entry and
sale ids as strings, timestamps as integers.  Text is modelled as `List Char`.
-/

namespace JBarsa

/-- Entry of the `fullCrates` / `emptyCrates` lists (`types.ts`, `WeightEntry`). -/
structure WeightEntry where
  id : String
  weight : ℚ
  crateCount : ℤ
  timestamp : ℤ
deriving DecidableEq

/-- Entry of the `mortality` list (`types.ts`, `MortalityEntry`). -/
structure MortalityEntry where
  id : String
  count : ℤ
  weight : ℚ
  timestamp : ℤ
deriving DecidableEq

/-- A client transaction (`types.ts`, `Sale`). -/
structure Sale where
  id : String
  clientName : String
  targetFullCrates : ℤ
  createdAt : ℤ
  fullCrates : List WeightEntry
  emptyCrates : List WeightEntry
  mortality : List MortalityEntry
  isCompleted : Bool
deriving DecidableEq

/-- A provider with its day stock and owned sales (`types.ts`, `Provider`). -/
structure Provider where
  id : String
  name : String
  initialFullCrates : ℤ
  chickensPerCrate : ℤ
  createdAt : ℤ
  sales : List Sale
deriving DecidableEq

/-- Result record of `calculateSaleMetrics` (`App.tsx` line 67). -/
structure Metrics where
  fullWeight : ℚ
  fullCount : ℤ
  emptyWeight : ℚ
  emptyCount : ℤ
  avgTare : ℚ
  totalTare : ℚ
  deadCount : ℤ
  deadWeight : ℚ
  netWeight : ℚ
  totalBirds : ℤ
  avgWeightPerBird : ℚ
deriving DecidableEq

/-- `calculateSaleMetrics` (`src/src/App.tsx` lines 48-68): the pure metrics
engine.  Each `reduce((a, b) => a + b.f, 0)` is a `List.foldl`. -/
def calculateSaleMetrics (sale : Sale) (chickensPerCrate : ℤ) : Metrics :=
  let fullWeight := sale.fullCrates.foldl (fun a b => a + b.weight) (0 : ℚ)
  let fullCount := sale.fullCrates.foldl (fun a b => a + b.crateCount) (0 : ℤ)
  let emptyWeight := sale.emptyCrates.foldl (fun a b => a + b.weight) (0 : ℚ)
  let emptyCount := sale.emptyCrates.foldl (fun a b => a + b.crateCount) (0 : ℤ)
  let deadCount := sale.mortality.foldl (fun a b => a + b.count) (0 : ℤ)
  let deadWeight := sale.mortality.foldl (fun a b => a + b.weight) (0 : ℚ)
  let avgTare := if emptyCount > 0 then emptyWeight / (emptyCount : ℚ) else 2.5
  let totalTare := (fullCount : ℚ) * avgTare
  let netWeight := max 0 (fullWeight - totalTare - deadWeight)
  let totalBirds := fullCount * chickensPerCrate - deadCount
  let avgWeightPerBird := if totalBirds > 0 then netWeight / (totalBirds : ℚ) else 0
  ⟨fullWeight, fullCount, emptyWeight, emptyCount, avgTare, totalTare,
    deadCount, deadWeight, netWeight, totalBirds, avgWeightPerBird⟩

/-- Entry kind handled by `addWeight` / `deleteEntry` (the literal union
`FULL | EMPTY | MORTALITY` in `App.tsx`). -/
inductive EntryType
  | FULL
  | EMPTY
  | MORTALITY
deriving DecidableEq

/-- Validation-guard rejection, with the context the corresponding `alert`
surfaces (`src/App.tsx` lines 560-580): `StockExceeded` carries the remaining
stock `initialFullCrates - totalSoldGlobal`. -/
inductive RejectReason
  | StockExceeded (remaining : ℤ)
  | ClientLimitExceeded (target : ℤ) (current : ℤ)
  | EmptyExceedsFull (attempted : ℤ) (full : ℤ)
deriving DecidableEq

/-- `sale.fullCrates.reduce((sum, c) => sum + c.crateCount, 0)`. -/
def saleFullCount (s : Sale) : ℤ :=
  s.fullCrates.foldl (fun a c => a + c.crateCount) (0 : ℤ)

/-- `sale.emptyCrates.reduce((sum, c) => sum + c.crateCount, 0)`. -/
def saleEmptyCount (s : Sale) : ℤ :=
  s.emptyCrates.foldl (fun a c => a + c.crateCount) (0 : ℤ)

/-- `currentSales.reduce((acc, s) => acc + s.fullCrates.reduce(..), 0)`
(`App.tsx` line 544). -/
def totalSoldGlobal (sales : List Sale) : ℤ :=
  sales.foldl (fun a s => a + saleFullCount s) (0 : ℤ)

/-- The per-sale update performed inside the `map` of `addWeight`
(`App.tsx` lines 566-574): a locked sale is returned as is, otherwise the new
entry is appended to the list named by `ty`. -/
def appendEntry (ty : EntryType) (weight : ℚ) (count : ℤ)
    (entryId : String) (timestamp : ℤ) (sale : Sale) : Sale :=
  if sale.isCompleted then sale
  else
    match ty with
    | .FULL =>
        { sale with fullCrates := sale.fullCrates ++ [⟨entryId, weight, count, timestamp⟩] }
    | .EMPTY =>
        { sale with emptyCrates := sale.emptyCrates ++ [⟨entryId, weight, count, timestamp⟩] }
    | .MORTALITY =>
        { sale with mortality := sale.mortality ++ [⟨entryId, count, weight, timestamp⟩] }

/-- The committing tail of `addWeight`: map over the provider sales, updating
the sale whose id matches `currentSaleId`; `handleUpdateProviderSales`
(`App.tsx` lines 277-284) replaces only the `sales` field of the provider. -/
def commitAdd (p : Provider) (currentSaleId : String) (ty : EntryType)
    (weight : ℚ) (count : ℤ) (entryId : String) (timestamp : ℤ) : Provider :=
  { p with
    sales := p.sales.map (fun sale =>
      if sale.id == currentSaleId then appendEntry ty weight count entryId timestamp sale
      else sale) }

/-- `addWeight` (`src/src/App.tsx` lines 538-576): validation guard followed by
commit.  The early `return`s of the source become a `(p, some reason)` result;
a missing current sale gives `(p, none)` with no change, as in the source. -/
def addWeight (p : Provider) (currentSaleId : String) (ty : EntryType)
    (weight : ℚ) (count : ℤ) (entryId : String) (timestamp : ℤ) :
    Provider × Option RejectReason :=
  match p.sales.find? (fun s => s.id == currentSaleId) with
  | none => (p, none)
  | some currentSale =>
    if ty = .FULL then
      let totalSold := totalSoldGlobal p.sales
      if totalSold + count > p.initialFullCrates then
        (p, some (.StockExceeded (p.initialFullCrates - totalSold)))
      else
        let currentClientCount := saleFullCount currentSale
        if currentClientCount + count > currentSale.targetFullCrates then
          (p, some (.ClientLimitExceeded currentSale.targetFullCrates currentClientCount))
        else
          (commitAdd p currentSaleId ty weight count entryId timestamp, none)
    else if ty = .EMPTY then
      let totalFull := saleFullCount currentSale
      let totalEmpty := saleEmptyCount currentSale
      if totalEmpty + count > totalFull then
        (p, some (.EmptyExceedsFull (totalEmpty + count) totalFull))
      else
        (commitAdd p currentSaleId ty weight count entryId timestamp, none)
    else
      (commitAdd p currentSaleId ty weight count entryId timestamp, none)

/-- The per-sale update performed inside the `map` of `deleteEntry`
(`App.tsx` lines 580-588). -/
def removeEntry (ty : EntryType) (id : String) (sale : Sale) : Sale :=
  if sale.isCompleted then sale
  else
    match ty with
    | .FULL => { sale with fullCrates := sale.fullCrates.filter (fun e => e.id != id) }
    | .EMPTY => { sale with emptyCrates := sale.emptyCrates.filter (fun e => e.id != id) }
    | .MORTALITY => { sale with mortality := sale.mortality.filter (fun e => e.id != id) }

/-- `deleteEntry` (`src/src/App.tsx` lines 578-590). -/
def deleteEntry (p : Provider) (currentSaleId : String) (ty : EntryType)
    (id : String) : Provider :=
  { p with
    sales := p.sales.map (fun sale =>
      if sale.id == currentSaleId then removeEntry ty id sale else sale) }

/-- `toggleSaleLock` (`src/src/App.tsx` lines 529-536). -/
def toggleSaleLock (p : Provider) (saleId : String) : Provider :=
  { p with
    sales := p.sales.map (fun s =>
      if s.id == saleId then { s with isCompleted := !s.isCompleted } else s) }

/-- An IEEE double as classified by the input guard: a finite value
(idealised as a rational), `NaN`, or an infinity.  `parseFloat` can produce
every one of these (for example `parseFloat("1e999") = Infinity`). -/
inductive JSNum
  | num (q : ℚ)
  | nan
  | posInf
  | negInf
deriving DecidableEq

/-- JavaScript `isNaN` on an already-parsed number. -/
def jsIsNaN : JSNum → Bool
  | .nan => true
  | _ => false

/-- JavaScript `x > 0` (`NaN > 0` is `false`, `Infinity > 0` is `true`). -/
def jsGtZero : JSNum → Bool
  | .num q => decide (0 < q)
  | .posInf => true
  | _ => false

/-- Whether a parsed value is finite (spec vocabulary: the `InvalidInput`
taxonomy rejects non-finite weight or count). -/
def jsFinite : JSNum → Bool
  | .num _ => true
  | _ => false

/-- The acceptance condition of `handleSubmit` in `WeighingPanel`
(`src/unnamed/part_000` lines 33-47): after the `disabled` and `isOverLimit`
early returns, `onAdd(w, c)` is invoked exactly when
`!isNaN(w) && !isNaN(c) && w > 0 && c > 0`. -/
def handleSubmitAccepts (disabled : Bool) (isOverLimit : Bool) (w c : JSNum) : Bool :=
  !disabled && !isOverLimit &&
    (!(jsIsNaN w) && !(jsIsNaN c) && jsGtZero w && jsGtZero c)

/-- Value of a list of decimal digit characters, most significant first. -/
def digitsToNat (l : List Char) : ℕ :=
  l.foldl (fun a c => 10 * a + (c.toNat - 48)) 0

/-- `parseFloat` of a matched numeral `intPart "." fracPart`. -/
def decValue (intPart fracPart : List Char) : ℚ :=
  (digitsToNat intPart : ℚ) + (digitsToNat fracPart : ℚ) / (10 : ℚ) ^ fracPart.length

/-- Greedy match of `/[\d]+(\.[\d]+)?/` anchored at a position known to start
with a digit: the maximal digit run, plus a fractional part when a dot
followed by at least one digit comes next. -/
def numMatchHere (l : List Char) : List Char × List Char :=
  let intPart := l.takeWhile Char.isDigit
  match l.dropWhile Char.isDigit with
  | '.' :: rest2 =>
      let fracPart := rest2.takeWhile Char.isDigit
      if fracPart.isEmpty then (intPart, []) else (intPart, fracPart)
  | _ => (intPart, [])

/-- Leftmost match of `/[\d]+(\.[\d]+)?/` over the decoded payload
(`text.match(...)` in `readScaleWeight`): scan to the first digit and match
there; `none` when the text holds no digit. -/
def firstNumMatch : List Char → Option (List Char × List Char)
  | [] => none
  | c :: rest => if c.isDigit then some (numMatchHere (c :: rest)) else firstNumMatch rest

/-- The simulated reading `parseFloat((Math.random() * 20 + 10).toFixed(2))`
(`App.tsx` line 328), with the random draw `r` passed explicitly; `toFixed`
followed by `parseFloat` is rounding to two decimals (ECMA-262 `toFixed`
picks the larger candidate on ties, which is `round` on nonnegative input). -/
def simulatedWeight (r : ℚ) : ℚ :=
  (round ((r * 20 + 10) * 100) : ℚ) / 100

/-- `readScaleWeight` (`src/src/App.tsx` lines 321-329).  `payload` is the
decoded text of `scaleChar.value` when a connected characteristic has
delivered one, `none` otherwise; `r` is the `Math.random()` draw used by the
simulation fallback. -/
def readScaleWeight (payload : Option (List Char)) (r : ℚ) : ℚ :=
  match payload with
  | some text =>
      match firstNumMatch text with
      | some m => decValue m.1 m.2
      | none => simulatedWeight r
  | none => simulatedWeight r

/-- Sign factor of an explicit sign character. -/
def signFactor (c : Char) : ℚ := if c = '-' then -1 else 1

/-- Value of the unsigned numeral match anchored at `l`. -/
def valHere (l : List Char) : ℚ :=
  decValue (numMatchHere l).1 (numMatchHere l).2

/-- Modelled from the spec: first-match extraction of a
*signed-or-unsigned* decimal number (integer or fractional) from anywhere in
the payload — the leftmost match of `/[-+]?\d+(\.\d+)?/` — which is what the
spec says `readWeight` returns for a delivered payload. -/
def specFirstSignedMatch : List Char → Option ℚ
  | [] => none
  | c :: rest =>
    if c = '-' ∨ c = '+' then
      match rest with
      | [] => none
      | d :: _ => if d.isDigit then some (signFactor c * valHere rest) else specFirstSignedMatch rest
    else if c.isDigit then some (valHere (c :: rest))
    else specFirstSignedMatch rest

/-- The ESC byte `\x1b` (`App.tsx` line 36). -/
def ESC : Char := '\x1b'

/-- The GS byte `\x1d` (`App.tsx` line 37). -/
def GS : Char := '\x1d'

namespace COMMANDS

/-- `ESC + '@'` — reset device state. -/
def INIT : List Char := [ESC, '@']

/-- `ESC + 'E' + '\x01'`. -/
def BOLD_ON : List Char := [ESC, 'E', '\x01']

/-- `ESC + 'E' + '\x00'`. -/
def BOLD_OFF : List Char := [ESC, 'E', '\x00']

/-- `ESC + 'a' + '\x01'`. -/
def CENTER : List Char := [ESC, 'a', '\x01']

/-- `ESC + 'a' + '\x00'`. -/
def LEFT : List Char := [ESC, 'a', '\x00']

/-- `GS + 'V' + '\x41' + '\x00'`. -/
def CUT : List Char := [GS, 'V', '\x41', '\x00']

end COMMANDS

/-- Decimal digit character for `n < 10`. -/
def digitChar (n : ℕ) : Char := Char.ofNat (48 + n)

/-- Decimal digit string of a natural number, as JavaScript number-to-string
renders a nonnegative integer. -/
def natDigits (n : ℕ) : List Char :=
  if _h : n < 10 then [digitChar n]
  else natDigits (n / 10) ++ [digitChar (n % 10)]
termination_by n
decreasing_by exact Nat.div_lt_self (by omega) (by omega)

/-- Decimal rendering of an integer, as `${x}` interpolates an integral
JavaScript number. -/
def intRepr (z : ℤ) : List Char :=
  if z < 0 then '-' :: natDigits z.natAbs else natDigits z.natAbs

/-- `x.toFixed(d)` re-read as a number-shaped string: round `x` to `d`
decimals (ECMA-262 picks the larger candidate on ties, which is `round`),
render sign, integer digits, a dot and exactly `d` fractional digits. -/
def toFixed (d : ℕ) (q : ℚ) : List Char :=
  let m := round (q * (10 : ℚ) ^ d)
  let sign := if m < 0 then ['-'] else ([] : List Char)
  let n := m.natAbs
  if d = 0 then sign ++ natDigits n
  else
    let fracDigits := natDigits (n % 10 ^ d)
    sign ++ natDigits (n / 10 ^ d) ++ '.' ::
      (List.replicate (d - fracDigits.length) '0' ++ fracDigits)

/-- ASCII model of `String.prototype.toUpperCase`. -/
def jsToUpperCase (s : List Char) : List Char :=
  s.map (fun c => if 'a' ≤ c ∧ c ≤ 'z' then Char.ofNat (c.toNat - 32) else c)

/-- `generateTicket` (`src/src/App.tsx` lines 412-436): the per-client ticket
template, with the rendered `toLocaleString` date passed in as `date`. -/
def generateTicket (sale : Sale) (provider : Provider) (date : List Char) : List Char :=
  let m := calculateSaleMetrics sale provider.chickensPerCrate
  "\n".toList ++ COMMANDS.CENTER
    ++ "POLLO CONTROL PRO\nPROVEEDOR: ".toList
    ++ jsToUpperCase provider.name.toList
    ++ "\n--------------------------------\nCLIENTE: ".toList
    ++ jsToUpperCase sale.clientName.toList
    ++ "\nFECHA: ".toList ++ date ++ "\n".toList
    ++ (if sale.isCompleted then "(VENTA CERRADA)".toList else "(PENDIENTE)".toList)
    ++ "\n--------------------------------\n".toList
    ++ COMMANDS.LEFT
    ++ "\nJabas Solicitadas: ".toList ++ intRepr sale.targetFullCrates
    ++ "\nJabas Llenas:      ".toList ++ intRepr m.fullCount
    ++ "\nPeso Bruto:        ".toList ++ toFixed 2 m.fullWeight ++ " kg".toList
    ++ "\nJabas Vacias:      ".toList ++ intRepr m.emptyCount
    ++ "\nTara (Prom):       ".toList ++ toFixed 2 m.totalTare ++ " kg".toList
    ++ "\nMuertos:           ".toList ++ intRepr m.deadCount ++ " und".toList
    ++ "\nPeso Muertos:      ".toList ++ toFixed 2 m.deadWeight ++ " kg".toList
    ++ "\n--------------------------------\n".toList
    ++ COMMANDS.BOLD_ON
    ++ "PESO NETO:      ".toList ++ toFixed 2 m.netWeight ++ " kg".toList
    ++ COMMANDS.BOLD_OFF
    ++ "\nProm. Pollo:       ".toList ++ toFixed 3 m.avgWeightPerBird ++ " kg".toList
    ++ "\n--------------------------------\n".toList

/-- Accumulator of `generateProviderSummary` (`App.tsx` lines 440-452). -/
structure SummaryTotals where
  fc : ℤ
  fw : ℚ
  ec : ℤ
  tt : ℚ
  dc : ℤ
  dw : ℚ
  nw : ℚ
  birds : ℤ
deriving DecidableEq

/-- `generateProviderSummary` (`src/src/App.tsx` lines 438-476): aggregate
ticket over all of the provider's sales, summing each sale's metrics
field by field. -/
def generateProviderSummary (provider : Provider) (date : List Char) : List Char :=
  let totals := provider.sales.foldl (fun acc sale =>
    let m := calculateSaleMetrics sale provider.chickensPerCrate
    ⟨acc.fc + m.fullCount, acc.fw + m.fullWeight, acc.ec + m.emptyCount,
      acc.tt + m.totalTare, acc.dc + m.deadCount, acc.dw + m.deadWeight,
      acc.nw + m.netWeight, acc.birds + m.totalBirds⟩)
    (⟨0, 0, 0, 0, 0, 0, 0, 0⟩ : SummaryTotals)
  let totalAvg := if totals.birds > 0 then totals.nw / (totals.birds : ℚ) else 0
  "\n".toList ++ COMMANDS.CENTER
    ++ "RESUMEN DE PROVEEDOR\n".toList
    ++ jsToUpperCase provider.name.toList
    ++ "\n".toList ++ date
    ++ "\n--------------------------------\n".toList
    ++ COMMANDS.LEFT
    ++ "\nTotal Ventas:   ".toList ++ natDigits provider.sales.length
    ++ "\nStock Inicial:  ".toList ++ intRepr provider.initialFullCrates ++ " Jabas".toList
    ++ "\nJabas Vendidas: ".toList ++ intRepr totals.fc
    ++ "\nStock Actual:   ".toList ++ intRepr (provider.initialFullCrates - totals.fc)
    ++ "\n--------------------------------\nPeso Bruto Tot: ".toList
    ++ toFixed 2 totals.fw ++ " kg".toList
    ++ "\nTara Total:     ".toList ++ toFixed 2 totals.tt ++ " kg".toList
    ++ "\nMuertos Total:  ".toList ++ intRepr totals.dc ++ " u / ".toList
    ++ toFixed 2 totals.dw ++ " kg".toList
    ++ "\n--------------------------------\n".toList
    ++ COMMANDS.BOLD_ON
    ++ "NETO TOTAL:     ".toList ++ toFixed 2 totals.nw ++ " kg".toList
    ++ COMMANDS.BOLD_OFF
    ++ "\nPROMEDIO POLLO: ".toList ++ toFixed 3 totalAvg ++ " kg".toList
    ++ "\n--------------------------------\n".toList

/-- `text.replace(/\x1b/g, '')` — drop every occurrence of one character. -/
def replaceAll (c : Char) (l : List Char) : List Char :=
  l.filter (fun x => x != c)

/-- The preview stripping of `renderTicketModal` (`src/src/App.tsx` line 615):
`ticketContent.replace(/\x1b/g, '').replace(/\x1d/g, '')`. -/
def stripControl (l : List Char) : List Char :=
  replaceAll GS (replaceAll ESC l)

/-- Modelled from the spec: the preview the spec promises — the ticket's
human-readable lines with the embedded directives removed entirely, i.e. the
`generateTicket` template with every directive contributing nothing. -/
def plainTicket (sale : Sale) (provider : Provider) (date : List Char) : List Char :=
  let m := calculateSaleMetrics sale provider.chickensPerCrate
  "\n".toList
    ++ "POLLO CONTROL PRO\nPROVEEDOR: ".toList
    ++ jsToUpperCase provider.name.toList
    ++ "\n--------------------------------\nCLIENTE: ".toList
    ++ jsToUpperCase sale.clientName.toList
    ++ "\nFECHA: ".toList ++ date ++ "\n".toList
    ++ (if sale.isCompleted then "(VENTA CERRADA)".toList else "(PENDIENTE)".toList)
    ++ "\n--------------------------------\n".toList
    ++ "\nJabas Solicitadas: ".toList ++ intRepr sale.targetFullCrates
    ++ "\nJabas Llenas:      ".toList ++ intRepr m.fullCount
    ++ "\nPeso Bruto:        ".toList ++ toFixed 2 m.fullWeight ++ " kg".toList
    ++ "\nJabas Vacias:      ".toList ++ intRepr m.emptyCount
    ++ "\nTara (Prom):       ".toList ++ toFixed 2 m.totalTare ++ " kg".toList
    ++ "\nMuertos:           ".toList ++ intRepr m.deadCount ++ " und".toList
    ++ "\nPeso Muertos:      ".toList ++ toFixed 2 m.deadWeight ++ " kg".toList
    ++ "\n--------------------------------\n".toList
    ++ "PESO NETO:      ".toList ++ toFixed 2 m.netWeight ++ " kg".toList
    ++ "\nProm. Pollo:       ".toList ++ toFixed 3 m.avgWeightPerBird ++ " kg".toList
    ++ "\n--------------------------------\n".toList

/-- Entry ids of the list `deleteEntry` filters for a given kind. -/
def saleEntryIds (ty : EntryType) (s : Sale) : List String :=
  match ty with
  | .FULL => s.fullCrates.map WeightEntry.id
  | .EMPTY => s.emptyCrates.map WeightEntry.id
  | .MORTALITY => s.mortality.map MortalityEntry.id

/-- The per-sale invariant of the spec: `Σ emptyCrates.count ≤ Σ fullCrates.count`. -/
def emptyLeFullInv (s : Sale) : Prop := saleEmptyCount s ≤ saleFullCount s

instance (s : Sale) : Decidable (emptyLeFullInv s) :=
  inferInstanceAs (Decidable (saleEmptyCount s ≤ saleFullCount s))

/-- One `Full`-addition request: target sale id, weight, count, fresh entry
id and timestamp. -/
def applyFullAdds (p : Provider) : List (String × ℚ × ℤ × String × ℤ) → Provider
  | [] => p
  | r :: rs => applyFullAdds (addWeight p r.1 .FULL r.2.1 r.2.2.1 r.2.2.2.1 r.2.2.2.2).1 rs

/-- Modelled from the spec: the `InvalidInput` condition — non-positive or
non-finite weight or count. -/
def specInvalidInput (w c : JSNum) : Prop :=
  (∃ q, w = .num q ∧ q ≤ 0) ∨ (∃ q, c = .num q ∧ q ≤ 0) ∨
    jsFinite w = false ∨ jsFinite c = false

/-- Frame relation between a sale before and after an `addWeight` or
`deleteEntry` targeting sale id `sid` with entry kind `ty`: identity and
bookkeeping fields are untouched, the two entry lists of the other kinds are
untouched, and a sale with a different id is untouched entirely. -/
def saleFrame (sid : String) (ty : EntryType) (s t : Sale) : Prop :=
  t.id = s.id ∧ t.clientName = s.clientName ∧ t.targetFullCrates = s.targetFullCrates ∧
  t.createdAt = s.createdAt ∧ t.isCompleted = s.isCompleted ∧
  (ty ≠ .FULL → t.fullCrates = s.fullCrates) ∧
  (ty ≠ .EMPTY → t.emptyCrates = s.emptyCrates) ∧
  (ty ≠ .MORTALITY → t.mortality = s.mortality) ∧
  (s.id ≠ sid → t = s)

/-- A sample open sale: one Full entry of 10 crates and 50 kg, one Empty
entry of 10 crates and 20 kg, one Mortality entry of 2 birds and 1 kg. -/
def sampleSale : Sale :=
  ⟨"s1", "cliente", 20, 0, [⟨"f1", 50, 10, 0⟩], [⟨"e1", 20, 10, 1⟩],
    [⟨"m1", 2, 1, 2⟩], false⟩

/-- A sample provider owning `sampleSale`. -/
def sampleProvider : Provider := ⟨"p1", "Avicola Sur", 100, 9, 0, [sampleSale]⟩

/-- A locked sample sale. -/
def lockedSale : Sale := ⟨"s1", "cliente", 20, 0, [⟨"f1", 50, 10, 0⟩], [], [], true⟩

/-- A provider owning only `lockedSale`. -/
def lockedProvider : Provider := ⟨"p2", "Avicola Norte", 100, 9, 0, [lockedSale]⟩

/-- A provider with one fresh, empty open sale, start of the C3 scenario. -/
def freshProvider : Provider :=
  ⟨"p3", "Avicola Este", 100, 9, 0, [⟨"s1", "cliente", 20, 0, [], [], [], false⟩]⟩

section Lemmas

/-- A `reduce((a, b) => a + f b, init)` is `init` plus the sum of the images. -/
theorem foldl_add_map {α M : Type} [AddCommMonoid M] (f : α → M) :
    ∀ (l : List α) (init : M), l.foldl (fun a b => a + f b) init = init + (l.map f).sum := by
  intro l
  induction l with
  | nil => intro init; simp
  | cons x xs ih => intro init; simp [ih, add_assoc]

theorem saleFullCount_eq (s : Sale) :
    saleFullCount s = (s.fullCrates.map WeightEntry.crateCount).sum := by
  simp [saleFullCount, foldl_add_map]

theorem saleEmptyCount_eq (s : Sale) :
    saleEmptyCount s = (s.emptyCrates.map WeightEntry.crateCount).sum := by
  simp [saleEmptyCount, foldl_add_map]

theorem totalSoldGlobal_eq (l : List Sale) :
    totalSoldGlobal l = (l.map saleFullCount).sum := by
  simp [totalSoldGlobal, foldl_add_map]

theorem totalSoldGlobal_cons (s : Sale) (l : List Sale) :
    totalSoldGlobal (s :: l) = saleFullCount s + totalSoldGlobal l := by
  simp [totalSoldGlobal_eq]

theorem appendEntry_id (ty : EntryType) (w : ℚ) (c : ℤ) (eid : String) (ts : ℤ) (s : Sale) :
    (appendEntry ty w c eid ts s).id = s.id := by
  by_cases h : s.isCompleted <;> cases ty <;> simp [appendEntry, h]

theorem removeEntry_id (ty : EntryType) (eid : String) (s : Sale) :
    (removeEntry ty eid s).id = s.id := by
  by_cases h : s.isCompleted <;> cases ty <;> simp [removeEntry, h]

theorem saleFullCount_appendEntry (ty : EntryType) (w : ℚ) (c : ℤ) (eid : String)
    (ts : ℤ) (s : Sale) :
    saleFullCount (appendEntry ty w c eid ts s) =
      if s.isCompleted = false ∧ ty = EntryType.FULL then saleFullCount s + c
      else saleFullCount s := by
  by_cases h : s.isCompleted <;> cases ty <;>
    simp [appendEntry, h, saleFullCount_eq]

theorem saleEmptyCount_appendEntry (ty : EntryType) (w : ℚ) (c : ℤ) (eid : String)
    (ts : ℤ) (s : Sale) :
    saleEmptyCount (appendEntry ty w c eid ts s) =
      if s.isCompleted = false ∧ ty = EntryType.EMPTY then saleEmptyCount s + c
      else saleEmptyCount s := by
  by_cases h : s.isCompleted <;> cases ty <;>
    simp [appendEntry, h, saleEmptyCount_eq]

/-- When no sale of `l` has the target id, the update map is the identity. -/
theorem map_update_eq_self (l : List Sale) (sid : String) (g : Sale → Sale)
    (h : ∀ s ∈ l, s.id = sid → g s = s) :
    l.map (fun s => if s.id == sid then g s else s) = l := by
  have : ∀ s ∈ l, (if s.id == sid then g s else s) = s := by
    intro s hs
    by_cases hid : s.id = sid
    · simp [hid, h s hs hid]
    · simp [hid]
  calc l.map (fun s => if s.id == sid then g s else s) = l.map id :=
        List.map_congr_left (by simpa using this)
    _ = l := List.map_id l

/-- With `Nodup` sale ids, any member with the searched id is the sale
`find?` returns. -/
theorem eq_find_of_nodup (l : List Sale) (sid : String) (cs : Sale)
    (hfind : l.find? (fun s => s.id == sid) = some cs)
    (hN : (l.map Sale.id).Nodup) :
    ∀ s ∈ l, s.id = sid → s = cs := by
  induction l with
  | nil => simp at hfind
  | cons x xs ih =>
    intro s hs hsid
    rw [List.map_cons, List.nodup_cons] at hN
    by_cases hx : x.id = sid
    · rw [List.find?_cons_of_pos _ (by simpa using hx)] at hfind
      rcases List.mem_cons.mp hs with h | h
      · rw [h]; exact Option.some.inj hfind
      · exact absurd (List.mem_map.mpr ⟨s, h, by rw [hsid, hx]⟩) hN.1
    · rw [List.find?_cons_of_neg _ (by simpa using hx)] at hfind
      rcases List.mem_cons.mp hs with h | h
      · exact absurd (h ▸ hsid) hx
      · exact ih hfind hN.2 s h hsid

/-- `find?` through an id-preserving update map. -/
theorem find?_map_update (l : List Sale) (sid : String) (g : Sale → Sale)
    (hg : ∀ s, (g s).id = s.id) (cs : Sale)
    (hfind : l.find? (fun s => s.id == sid) = some cs) :
    (l.map (fun s => if s.id == sid then g s else s)).find? (fun s => s.id == sid)
      = some (if cs.id == sid then g cs else cs) := by
  rw [List.find?_map]
  have hp : ((fun s : Sale => s.id == sid) ∘ fun s => if s.id == sid then g s else s)
      = fun s : Sale => s.id == sid := by
    funext s
    by_cases h : s.id = sid <;> simp [h, hg]
  rw [hp, hfind]
  rfl

/-- The `totalSoldGlobal` delta of an update map, under a unique target. -/
theorem totalSoldGlobal_map_update (l : List Sale) (sid : String) (g : Sale → Sale)
    (cs : Sale) (hfind : l.find? (fun s => s.id == sid) = some cs)
    (hN : (l.map Sale.id).Nodup) :
    totalSoldGlobal (l.map (fun s => if s.id == sid then g s else s))
      = totalSoldGlobal l - saleFullCount cs + saleFullCount (g cs) := by
  induction l with
  | nil => simp at hfind
  | cons x xs ih =>
    simp only [List.map_cons, List.nodup_cons] at hN
    by_cases hx : x.id = sid
    · rw [List.find?_cons_of_pos _ (by simpa using hx)] at hfind
      have hxc : x = cs := Option.some.inj hfind
      have htail : xs.map (fun s => if s.id == sid then g s else s) = xs := by
        apply map_update_eq_self
        intro s hs hsid
        exact absurd (List.mem_map.mpr ⟨s, hs, by rw [hsid, hx]⟩) hN.1
      have hxif : (if x.id == sid then g x else x) = g x := by simp [hx]
      simp only [List.map_cons]
      rw [hxif, htail, totalSoldGlobal_cons, totalSoldGlobal_cons, ← hxc]
      ring
    · rw [List.find?_cons_of_neg _ (by simpa using hx)] at hfind
      have hxif : (if x.id == sid then g x else x) = x := by simp [hx]
      simp only [List.map_cons]
      rw [hxif, totalSoldGlobal_cons, totalSoldGlobal_cons, ih hfind hN.2]
      ring

end Lemmas

/-- C1.  `calculateSaleMetrics` returns the six sums over the entry lists,
`avgTare = emptyWeight/emptyCount` when `emptyCount > 0` and the default 2.5
otherwise, `totalTare = fullCount * avgTare`,
`netWeight = max 0 (fullWeight - totalTare - deadWeight)` (hence nonnegative),
`totalBirds = fullCount * chickensPerCrate - deadCount`, and
`avgWeightPerBird = netWeight/totalBirds` when `totalBirds > 0`, else 0. -/
theorem calculateSaleMetrics_spec (sale : Sale) (cpc : ℤ) :
    (calculateSaleMetrics sale cpc).fullWeight = (sale.fullCrates.map WeightEntry.weight).sum ∧
    (calculateSaleMetrics sale cpc).fullCount = (sale.fullCrates.map WeightEntry.crateCount).sum ∧
    (calculateSaleMetrics sale cpc).emptyWeight = (sale.emptyCrates.map WeightEntry.weight).sum ∧
    (calculateSaleMetrics sale cpc).emptyCount = (sale.emptyCrates.map WeightEntry.crateCount).sum ∧
    (calculateSaleMetrics sale cpc).deadWeight = (sale.mortality.map MortalityEntry.weight).sum ∧
    (calculateSaleMetrics sale cpc).deadCount = (sale.mortality.map MortalityEntry.count).sum ∧
    (calculateSaleMetrics sale cpc).avgTare =
      (if 0 < (calculateSaleMetrics sale cpc).emptyCount then
        (calculateSaleMetrics sale cpc).emptyWeight /
          ((calculateSaleMetrics sale cpc).emptyCount : ℚ)
      else 2.5) ∧
    (calculateSaleMetrics sale cpc).totalTare =
      ((calculateSaleMetrics sale cpc).fullCount : ℚ) * (calculateSaleMetrics sale cpc).avgTare ∧
    (calculateSaleMetrics sale cpc).netWeight =
      max 0 ((calculateSaleMetrics sale cpc).fullWeight -
        (calculateSaleMetrics sale cpc).totalTare - (calculateSaleMetrics sale cpc).deadWeight) ∧
    0 ≤ (calculateSaleMetrics sale cpc).netWeight ∧
    (calculateSaleMetrics sale cpc).totalBirds =
      (calculateSaleMetrics sale cpc).fullCount * cpc - (calculateSaleMetrics sale cpc).deadCount ∧
    (calculateSaleMetrics sale cpc).avgWeightPerBird =
      (if 0 < (calculateSaleMetrics sale cpc).totalBirds then
        (calculateSaleMetrics sale cpc).netWeight /
          ((calculateSaleMetrics sale cpc).totalBirds : ℚ)
      else 0) := by
  refine ⟨?_, ?_, ?_, ?_, ?_, ?_, ?_, ?_, ?_, ?_, ?_, ?_⟩ <;>
    simp [calculateSaleMetrics, foldl_add_map, le_max_left]

section GuardLemmas

/-- `addWeight` either rejects (leaving the provider untouched) or commits. -/
theorem addWeight_fst_eq_or (p : Provider) (sid : String) (ty : EntryType)
    (w : ℚ) (c : ℤ) (eid : String) (ts : ℤ) :
    (addWeight p sid ty w c eid ts).1 = p ∨
      (addWeight p sid ty w c eid ts).1 = commitAdd p sid ty w c eid ts := by
  unfold addWeight
  rcases h : p.sales.find? (fun s => s.id == sid) with _ | cs
  · rw [h]; exact Or.inl rfl
  · rw [h]
    by_cases h1 : ty = .FULL
    · simp only [h1, if_true]
      by_cases h2 : totalSoldGlobal p.sales + c > p.initialFullCrates
      · simp [h2]
      · by_cases h3 : saleFullCount cs + c > cs.targetFullCrates
        · simp [h2, h3]
        · simp [h2, h3]
    · by_cases h4 : ty = .EMPTY
      · simp only [h1, if_false, h4, if_true]
        by_cases h5 : saleEmptyCount cs + c > saleFullCount cs
        · simp [h5]
        · simp [h5]
      · simp [h1, h4]

theorem commitAdd_ids (p : Provider) (sid : String) (ty : EntryType)
    (w : ℚ) (c : ℤ) (eid : String) (ts : ℤ) :
    (commitAdd p sid ty w c eid ts).sales.map Sale.id = p.sales.map Sale.id := by
  show (p.sales.map _).map Sale.id = _
  rw [List.map_map]
  apply List.map_congr_left
  intro s _
  by_cases h : s.id = sid <;> simp [h, appendEntry_id]

theorem addWeight_ids (p : Provider) (sid : String) (ty : EntryType)
    (w : ℚ) (c : ℤ) (eid : String) (ts : ℤ) :
    ((addWeight p sid ty w c eid ts).1).sales.map Sale.id = p.sales.map Sale.id := by
  rcases addWeight_fst_eq_or p sid ty w c eid ts with h | h <;> rw [h]
  exact commitAdd_ids p sid ty w c eid ts

theorem addWeight_initialFullCrates (p : Provider) (sid : String) (ty : EntryType)
    (w : ℚ) (c : ℤ) (eid : String) (ts : ℤ) :
    ((addWeight p sid ty w c eid ts).1).initialFullCrates = p.initialFullCrates := by
  rcases addWeight_fst_eq_or p sid ty w c eid ts with h | h <;> rw [h]
  rfl

/-- Single-step preservation of the provider stock bound. -/
theorem stock_inv_step (p : Provider) (sid : String) (ty : EntryType)
    (w : ℚ) (c : ℤ) (eid : String) (ts : ℤ)
    (hN : (p.sales.map Sale.id).Nodup)
    (hinv : totalSoldGlobal p.sales ≤ p.initialFullCrates) :
    totalSoldGlobal ((addWeight p sid ty w c eid ts).1).sales ≤ p.initialFullCrates := by
  unfold addWeight
  rcases hfind : p.sales.find? (fun s => s.id == sid) with _ | cs
  · rw [hfind]; exact hinv
  · rw [hfind]
    by_cases h1 : ty = .FULL
    · simp only [h1, if_true]
      by_cases h2 : totalSoldGlobal p.sales + c > p.initialFullCrates
      · simpa [h2] using hinv
      · by_cases h3 : saleFullCount cs + c > cs.targetFullCrates
        · simpa [h2, h3] using hinv
        · simp only [h2, if_false, h3]
          show totalSoldGlobal ((commitAdd p sid .FULL w c eid ts).sales) ≤ _
          unfold commitAdd
          rw [totalSoldGlobal_map_update p.sales sid _ cs hfind hN,
            saleFullCount_appendEntry]
          by_cases h4 : cs.isCompleted = false
          · simp only [h4, true_and, if_true]
            omega
          · simp only [h4, false_and, if_false]
            omega
    · by_cases h4 : ty = .EMPTY
      · simp only [h1, if_false, h4, if_true]
        by_cases h5 : saleEmptyCount cs + c > saleFullCount cs
        · simpa [h5] using hinv
        · simp only [h5, if_false]
          show totalSoldGlobal ((commitAdd p sid .EMPTY w c eid ts).sales) ≤ _
          unfold commitAdd
          rw [totalSoldGlobal_map_update p.sales sid _ cs hfind hN,
            saleFullCount_appendEntry, if_neg (by simp)]
          omega
      · simp only [h1, if_false, h4]
        show totalSoldGlobal ((commitAdd p sid ty w c eid ts).sales) ≤ _
        unfold commitAdd
        rw [totalSoldGlobal_map_update p.sales sid _ cs hfind hN,
          saleFullCount_appendEntry,
          if_neg (by rintro ⟨-, h⟩; exact h1 h)]
        omega

/-- `addWeight` for an `Empty` entry: either a no-op on the provider, or the
commit together with the passed `EmptyExceedsFull` check on the found sale. -/
theorem addWeight_empty_cases (p : Provider) (sid : String) (w : ℚ) (c : ℤ)
    (eid : String) (ts : ℤ) :
    (addWeight p sid .EMPTY w c eid ts).1 = p ∨
    (∃ cs, p.sales.find? (fun s => s.id == sid) = some cs ∧
      saleEmptyCount cs + c ≤ saleFullCount cs ∧
      (addWeight p sid .EMPTY w c eid ts).1 = commitAdd p sid .EMPTY w c eid ts) := by
  unfold addWeight
  rcases hfind : p.sales.find? (fun s => s.id == sid) with _ | cs
  · rw [hfind]; exact Or.inl rfl
  · rw [hfind]
    by_cases h5 : saleEmptyCount cs + c > saleFullCount cs
    · exact Or.inl (by simp [h5])
    · exact Or.inr ⟨cs, rfl, by omega, by simp [h5]⟩

end GuardLemmas

/-- C2.  The provider-level stock invariant
`Σ over all sales of Σ fullCrates.count ≤ initialFullCrates` is preserved by
every single `addWeight` and by every sequence of `Full` additions, and an
addition with `totalSoldGlobal + count > initialFullCrates` is rejected with
`StockExceeded` carrying the remaining stock and leaves the provider — hence
every sale — unchanged. -/
theorem stock_invariant_spec (p : Provider)
    (hN : (p.sales.map Sale.id).Nodup)
    (hinv : totalSoldGlobal p.sales ≤ p.initialFullCrates) :
    (∀ sid ty w c eid ts,
      totalSoldGlobal ((addWeight p sid ty w c eid ts).1).sales ≤
        ((addWeight p sid ty w c eid ts).1).initialFullCrates) ∧
    (∀ reqs, totalSoldGlobal (applyFullAdds p reqs).sales ≤
        (applyFullAdds p reqs).initialFullCrates) ∧
    (∀ sid w c eid ts cs,
      p.sales.find? (fun s => s.id == sid) = some cs →
      totalSoldGlobal p.sales + c > p.initialFullCrates →
      addWeight p sid .FULL w c eid ts =
        (p, some (.StockExceeded (p.initialFullCrates - totalSoldGlobal p.sales)))) := by
  refine ⟨?_, ?_, ?_⟩
  · intro sid ty w c eid ts
    rw [addWeight_initialFullCrates]
    exact stock_inv_step p sid ty w c eid ts hN hinv
  · intro reqs
    induction reqs generalizing p with
    | nil => exact hinv
    | cons r rs ih =>
      show totalSoldGlobal (applyFullAdds _ rs).sales ≤ _
      apply ih
      · rw [addWeight_ids]; exact hN
      · rw [addWeight_initialFullCrates]
        exact stock_inv_step p r.1 .FULL r.2.1 r.2.2.1 r.2.2.2.1 r.2.2.2.2 hN hinv
  · intro sid w c eid ts cs hfind hover
    unfold addWeight
    rw [hfind]
    simp [hover]

/-- Witness for C2 at the sample provider: one accepted and the sequence
bound, plus a concrete `StockExceeded` rejection. -/
theorem stock_invariant_spec_witness :
    ((sampleProvider.sales.map Sale.id).Nodup ∧
      totalSoldGlobal sampleProvider.sales ≤ sampleProvider.initialFullCrates) ∧
    totalSoldGlobal ((addWeight sampleProvider "s1" .FULL 10 5 "f9" 9).1).sales ≤
      ((addWeight sampleProvider "s1" .FULL 10 5 "f9" 9).1).initialFullCrates ∧
    addWeight sampleProvider "s1" .FULL 10 95 "f9" 9 =
      (sampleProvider, some (.StockExceeded 90)) := by
  refine ⟨⟨by decide, by decide⟩, ?_, ?_⟩
  · exact (stock_invariant_spec sampleProvider (by decide) (by decide)).1 "s1" .FULL 10 5 "f9" 9
  · have h := (stock_invariant_spec sampleProvider (by decide) (by decide)).2.2
      "s1" 10 95 "f9" 9 sampleSale (by decide) (by decide)
    simpa using h

section EmptyFullLemmas

theorem removeEntry_fullCrates_of_ne (ty : EntryType) (eid : String) (s : Sale)
    (h : ty ≠ .FULL) : (removeEntry ty eid s).fullCrates = s.fullCrates := by
  by_cases hl : s.isCompleted <;> cases ty <;> simp [removeEntry, hl] at h ⊢

theorem saleEmptyCount_removeEntry_le (ty : EntryType) (eid : String) (s : Sale)
    (h : ∀ e ∈ s.emptyCrates, 0 ≤ e.crateCount) :
    saleEmptyCount (removeEntry ty eid s) ≤ saleEmptyCount s := by
  by_cases hl : s.isCompleted <;> cases ty <;> simp [removeEntry, hl, saleEmptyCount_eq]
  exact List.Sublist.sum_le_sum
    (List.Sublist.map WeightEntry.crateCount (List.filter_sublist s.emptyCrates))
    (by intro x hx; rcases List.mem_map.mp hx with ⟨e, he, rfl⟩; exact h e he)

end EmptyFullLemmas

/-- C3 counterexample.  Starting from a fresh provider, a `Full` addition of
10 crates and an `Empty` addition of 10 crates are both accepted and the
invariant `Σ empty ≤ Σ full` holds; deleting the `Full` entry is carried out
with no re-validation and leaves a sale with 10 empty crates against 0 full
crates, violating the invariant. -/
theorem empty_le_full_counterexample :
    ((addWeight freshProvider "s1" .FULL 50 10 "f1" 0).2 = none) ∧
    ((addWeight (addWeight freshProvider "s1" .FULL 50 10 "f1" 0).1
        "s1" .EMPTY 20 10 "e1" 1).2 = none) ∧
    (∀ s ∈ ((addWeight (addWeight freshProvider "s1" .FULL 50 10 "f1" 0).1
        "s1" .EMPTY 20 10 "e1" 1).1).sales, emptyLeFullInv s) ∧
    ¬ (∀ s ∈ (deleteEntry ((addWeight (addWeight freshProvider "s1" .FULL 50 10 "f1" 0).1
        "s1" .EMPTY 20 10 "e1" 1).1) "s1" .FULL "f1").sales, emptyLeFullInv s) := by
  refine ⟨by decide, by decide, by decide, by decide⟩

/-- C3 amended.  `Σ emptyCrates.count ≤ Σ fullCrates.count` per sale is
preserved by every `addWeight` (accepted or rejected, for nonnegative count
arguments) — an Empty addition that would exceed the full count is rejected
with `EmptyExceedsFull` — by `deleteEntry` of kind Empty or Mortality (given
the nonnegative recorded counts the input guard enforces), and by
`toggleSaleLock`; deleting a `Full` entry is not re-validated and can violate
the invariant (see the counterexample). -/
theorem empty_le_full_amended (p : Provider) (sid : String)
    (hN : (p.sales.map Sale.id).Nodup)
    (hinv : ∀ s ∈ p.sales, emptyLeFullInv s) :
    (∀ ty w c eid ts, 0 ≤ c →
      ∀ s ∈ ((addWeight p sid ty w c eid ts).1).sales, emptyLeFullInv s) ∧
    (∀ ty eid, ty ≠ .FULL →
      (∀ s ∈ p.sales, ∀ e ∈ s.emptyCrates, 0 ≤ e.crateCount) →
      ∀ s ∈ (deleteEntry p sid ty eid).sales, emptyLeFullInv s) ∧
    (∀ s ∈ (toggleSaleLock p sid).sales, emptyLeFullInv s) := by
  have hcommit : ∀ ty w c eid ts, 0 ≤ c → ty ≠ .EMPTY →
      ∀ s ∈ (commitAdd p sid ty w c eid ts).sales, emptyLeFullInv s := by
    intro ty w c eid ts hc hty s hs
    unfold commitAdd at hs
    rcases List.mem_map.mp hs with ⟨s0, hs0, rfl⟩
    by_cases hid : s0.id = sid
    · rw [if_pos (beq_iff_eq.mpr hid)]
      unfold emptyLeFullInv
      rw [saleEmptyCount_appendEntry, if_neg (by rintro ⟨-, h⟩; exact hty h),
        saleFullCount_appendEntry]
      have hi := hinv s0 hs0
      unfold emptyLeFullInv at hi
      by_cases h4 : s0.isCompleted = false ∧ ty = EntryType.FULL
      · rw [if_pos h4]; omega
      · rw [if_neg h4]; exact hi
    · rw [if_neg (by simpa using hid)]; exact hinv s0 hs0
  refine ⟨?_, ?_, ?_⟩
  · intro ty w c eid ts hc
    cases ty with
    | FULL =>
      rcases addWeight_fst_eq_or p sid .FULL w c eid ts with h | h <;> rw [h]
      · exact hinv
      · exact hcommit .FULL w c eid ts hc (by rintro h2; cases h2)
    | EMPTY =>
      rcases addWeight_empty_cases p sid w c eid ts with h | ⟨cs, hfind, hle, h⟩ <;>
        rw [h]
      · exact hinv
      · intro s hs
        unfold commitAdd at hs
        rcases List.mem_map.mp hs with ⟨s0, hs0, rfl⟩
        by_cases hid : s0.id = sid
        · have hs0cs : s0 = cs := eq_find_of_nodup p.sales sid cs hfind hN s0 hs0 hid
          rw [if_pos (beq_iff_eq.mpr hid)]
          unfold emptyLeFullInv
          rw [saleFullCount_appendEntry, if_neg (by rintro ⟨-, h2⟩; cases h2),
            saleEmptyCount_appendEntry]
          by_cases hl : s0.isCompleted = false
          · rw [if_pos ⟨hl, rfl⟩, hs0cs]; omega
          · rw [if_neg (by rintro ⟨h2, -⟩; exact hl h2)]
            exact hinv s0 hs0
        · rw [if_neg (by simpa using hid)]; exact hinv s0 hs0
    | MORTALITY =>
      rcases addWeight_fst_eq_or p sid .MORTALITY w c eid ts with h | h <;> rw [h]
      · exact hinv
      · exact hcommit .MORTALITY w c eid ts hc (by rintro h2; cases h2)
  · intro ty eid hty hnn s hs
    rcases List.mem_map.mp hs with ⟨s0, hs0, rfl⟩
    by_cases hid : s0.id = sid
    · simp only [hid, beq_self_eq_true, if_true]
      unfold emptyLeFullInv
      rw [show saleFullCount (removeEntry ty eid s0) = saleFullCount s0 by
        unfold saleFullCount; rw [removeEntry_fullCrates_of_ne ty eid s0 hty]]
      calc saleEmptyCount (removeEntry ty eid s0)
          ≤ saleEmptyCount s0 := saleEmptyCount_removeEntry_le ty eid s0 (hnn s0 hs0)
        _ ≤ saleFullCount s0 := hinv s0 hs0
    · simpa [hid] using hinv s0 hs0
  · intro s hs
    rcases List.mem_map.mp hs with ⟨s0, hs0, rfl⟩
    by_cases hid : s0.id = sid
    · simp only [hid, beq_self_eq_true, if_true]
      exact hinv s0 hs0
    · simpa [hid] using hinv s0 hs0

/-- Witness for the amended C3 at the sample provider. -/
theorem empty_le_full_amended_witness :
    ((sampleProvider.sales.map Sale.id).Nodup ∧
      (∀ s ∈ sampleProvider.sales, emptyLeFullInv s) ∧ (0 : ℤ) ≤ 3) ∧
    ∀ s ∈ ((addWeight sampleProvider "s1" .EMPTY 5 3 "e9" 9).1).sales,
      emptyLeFullInv s := by
  refine ⟨⟨by decide, by decide, by decide⟩, ?_⟩
  exact (empty_le_full_amended sampleProvider "s1" (by decide) (by decide)).1
    .EMPTY 5 3 "e9" 9 (by decide)

section LockLemmas

theorem appendEntry_locked (ty : EntryType) (w : ℚ) (c : ℤ) (eid : String)
    (ts : ℤ) (s : Sale) (h : s.isCompleted = true) :
    appendEntry ty w c eid ts s = s := by
  simp [appendEntry, h]

theorem removeEntry_locked (ty : EntryType) (eid : String) (s : Sale)
    (h : s.isCompleted = true) : removeEntry ty eid s = s := by
  simp [removeEntry, h]

/-- `addWeight` with a `Mortality` entry and a found sale always commits. -/
theorem addWeight_mortality_commit (p : Provider) (sid : String) (w : ℚ) (c : ℤ)
    (eid : String) (ts : ℤ) (cs : Sale)
    (hfind : p.sales.find? (fun s => s.id == sid) = some cs) :
    (addWeight p sid .MORTALITY w c eid ts).1 =
      commitAdd p sid .MORTALITY w c eid ts := by
  unfold addWeight
  rw [hfind]
  simp

end LockLemmas

/-- C4.  On a locked sale (`isCompleted = true`), `addWeight` and
`deleteEntry` leave the provider — in particular the sale's three entry
lists — unchanged for all arguments; `toggleSaleLock` always succeeds and
flips `isCompleted`; and once toggled back to open, a Mortality addition
appends its entry and a deletion filters the targeted list again. -/
theorem sale_locking_spec (p : Provider) (sid : String) (cs : Sale)
    (hN : (p.sales.map Sale.id).Nodup)
    (hfind : p.sales.find? (fun s => s.id == sid) = some cs)
    (hlock : cs.isCompleted = true) :
    (∀ ty w c eid ts, (addWeight p sid ty w c eid ts).1 = p) ∧
    (∀ ty eid, deleteEntry p sid ty eid = p) ∧
    ((toggleSaleLock p sid).sales.find? (fun s => s.id == sid)
      = some { cs with isCompleted := !cs.isCompleted }) ∧
    (∀ w c eid ts,
      ((addWeight (toggleSaleLock p sid) sid .MORTALITY w c eid ts).1).sales.find?
          (fun s => s.id == sid)
        = some { cs with
            isCompleted := false,
            mortality := cs.mortality ++ [⟨eid, c, w, ts⟩] }) ∧
    (∀ ty eid,
      (deleteEntry (toggleSaleLock p sid) sid ty eid).sales.find?
          (fun s => s.id == sid)
        = some (removeEntry ty eid { cs with isCompleted := false })) := by
  have hmem : ∀ s ∈ p.sales, s.id = sid → s = cs := eq_find_of_nodup p.sales sid cs hfind hN
  have htog : (toggleSaleLock p sid).sales.find? (fun s => s.id == sid)
      = some { cs with isCompleted := !cs.isCompleted } := by
    show (p.sales.map _).find? _ = _
    rw [find?_map_update p.sales sid
        (fun s => { s with isCompleted := !s.isCompleted }) (fun s => rfl) cs hfind,
      if_pos (List.find?_some hfind)]
  have htog2 : (toggleSaleLock p sid).sales.find? (fun s => s.id == sid)
      = some { cs with isCompleted := false } := by
    rw [htog, hlock]
    exact rfl
  refine ⟨?_, ?_, htog, ?_, ?_⟩
  · intro ty w c eid ts
    rcases addWeight_fst_eq_or p sid ty w c eid ts with h | h
    · exact h
    · rw [h]
      unfold commitAdd
      rw [map_update_eq_self p.sales sid _ (fun s hs hsid =>
        appendEntry_locked ty w c eid ts s (by rw [hmem s hs hsid]; exact hlock))]
  · intro ty eid
    unfold deleteEntry
    rw [map_update_eq_self p.sales sid _ (fun s hs hsid =>
      removeEntry_locked ty eid s (by rw [hmem s hs hsid]; exact hlock))]
  · intro w c eid ts
    rw [addWeight_mortality_commit (toggleSaleLock p sid) sid w c eid ts _ htog2]
    show ((toggleSaleLock p sid).sales.map _).find? _ = _
    rw [find?_map_update (toggleSaleLock p sid).sales sid _
        (appendEntry_id .MORTALITY w c eid ts) _ htog2,
      if_pos (List.find?_some htog2)]
    simp [appendEntry]
  · intro ty eid
    show ((toggleSaleLock p sid).sales.map _).find? _ = _
    rw [find?_map_update (toggleSaleLock p sid).sales sid _
        (removeEntry_id ty eid) _ htog2,
      if_pos (List.find?_some htog2)]

/-- Witness for C4 at the locked sample provider. -/
theorem sale_locking_spec_witness :
    ((lockedProvider.sales.map Sale.id).Nodup ∧
      lockedProvider.sales.find? (fun s => s.id == "s1") = some lockedSale ∧
      lockedSale.isCompleted = true) ∧
    (addWeight lockedProvider "s1" .FULL 10 1 "f2" 5).1 = lockedProvider ∧
    deleteEntry lockedProvider "s1" .FULL "f1" = lockedProvider :=
  ⟨⟨by decide, by decide, by decide⟩,
    (sale_locking_spec lockedProvider "s1" lockedSale (by decide) (by decide)
      (by decide)).1 .FULL 10 1 "f2" 5,
    (sale_locking_spec lockedProvider "s1" lockedSale (by decide) (by decide)
      (by decide)).2.1 .FULL "f1"⟩

/-- C5 counterexample.  The claim says a non-finite weight is rejected, but
the guard of `handleSubmit` only tests `isNaN` and `> 0`: a weight of
`Infinity` (e.g. `parseFloat("1e999")`) with count 1 satisfies
`specInvalidInput`, yet the guard accepts it and `onAdd` is invoked. -/
theorem invalid_input_counterexample :
    specInvalidInput .posInf (.num 1) ∧
      handleSubmitAccepts false false .posInf (.num 1) = true :=
  ⟨Or.inr (Or.inr (Or.inl rfl)), rfl⟩

/-- C5 amended.  The guard accepts exactly when the panel is enabled, the
count is within the crate limit, and both parsed values are non-`NaN` and
`> 0`; hence a request with a `NaN` or non-positive weight or count is always
rejected (and `onAdd` is never invoked, leaving the sale unchanged) — but a
non-finite `Infinity` value passes the guard. -/
theorem invalid_input_amended (d o : Bool) (w c : JSNum) :
    (handleSubmitAccepts d o w c = true ↔
      d = false ∧ o = false ∧ jsIsNaN w = false ∧ jsIsNaN c = false ∧
        jsGtZero w = true ∧ jsGtZero c = true) ∧
    ((∃ q, w = .num q ∧ q ≤ 0) ∨ jsIsNaN w = true ∨
        (∃ q, c = .num q ∧ q ≤ 0) ∨ jsIsNaN c = true →
      handleSubmitAccepts d o w c = false) := by
  constructor
  · unfold handleSubmitAccepts
    cases d <;> cases o <;> simp [and_assoc]
  · rintro (⟨q, rfl, hq⟩ | hw | ⟨q, rfl, hq⟩ | hc)
    · unfold handleSubmitAccepts
      simp [jsGtZero, not_lt.mpr hq]
    · unfold handleSubmitAccepts
      simp [hw]
    · unfold handleSubmitAccepts
      simp [jsGtZero, not_lt.mpr hq]
    · unfold handleSubmitAccepts
      simp [hc]

/-- Witness for the amended C5: a zero weight is rejected. -/
theorem invalid_input_amended_witness :
    ((∃ q, JSNum.num 0 = JSNum.num q ∧ q ≤ 0) ∨ jsIsNaN (.num 0) = true ∨
      (∃ q, JSNum.num 1 = JSNum.num q ∧ q ≤ 0) ∨ jsIsNaN (.num 1) = true) ∧
    handleSubmitAccepts false false (.num 0) (.num 1) = false :=
  ⟨Or.inl ⟨0, rfl, le_refl 0⟩,
    (invalid_input_amended false false (.num 0) (.num 1)).2
      (Or.inl ⟨0, rfl, le_refl 0⟩)⟩

/-- C7 counterexample.  On the payload `"-12.5"` the claim (first-match
*signed*-or-unsigned extraction) yields `-12.5`, but the implemented regex
`/[\d]+(\.[\d]+)?/` has no sign part, so `readScaleWeight` returns `12.5`. -/
theorem readScaleWeight_counterexample :
    readScaleWeight (some ['-', '1', '2', '.', '5']) 0 = 25 / 2 ∧
    specFirstSignedMatch ['-', '1', '2', '.', '5'] = some (-(25 / 2)) ∧
    specFirstSignedMatch ['-', '1', '2', '.', '5'] ≠
      some (readScaleWeight (some ['-', '1', '2', '.', '5']) 0) := by
  have h1 : readScaleWeight (some ['-', '1', '2', '.', '5']) 0 = 25 / 2 := by
    norm_num [readScaleWeight, firstNumMatch, numMatchHere, decValue, digitsToNat,
      List.takeWhile, List.dropWhile,
      (by decide : Char.isDigit '-' = false), (by decide : Char.isDigit '1' = true),
      (by decide : Char.isDigit '2' = true), (by decide : Char.isDigit '.' = false),
      (by decide : Char.isDigit '5' = true),
      (by decide : Char.toNat '1' - 48 = 1), (by decide : Char.toNat '2' - 48 = 2),
      (by decide : Char.toNat '5' - 48 = 5)]
  have h2 : specFirstSignedMatch ['-', '1', '2', '.', '5'] = some (-(25 / 2)) := by
    norm_num [specFirstSignedMatch, valHere, signFactor, numMatchHere, decValue,
      digitsToNat, List.takeWhile, List.dropWhile,
      (by decide : Char.isDigit '-' = false), (by decide : Char.isDigit '1' = true),
      (by decide : Char.isDigit '2' = true), (by decide : Char.isDigit '.' = false),
      (by decide : Char.isDigit '5' = true),
      (by decide : Char.toNat '1' - 48 = 1), (by decide : Char.toNat '2' - 48 = 2),
      (by decide : Char.toNat '5' - 48 = 5)]
  refine ⟨h1, h2, ?_⟩
  rw [h1, h2]
  simp only [ne_eq, Option.some.injEq]
  norm_num

/-- C7 amended.  With a payload available, `readScaleWeight` returns the
first-match *unsigned* decimal — a sign character is skipped, so prepending
a `-` or `+` does not change the extraction, and the result is nonnegative;
with a digit-free payload, or with no payload, the simulated reading is
returned.  The operation is a total function, hence never raises. -/
theorem readScaleWeight_amended (text : List Char) (r : ℚ) :
    (∀ ip fp, firstNumMatch text = some (ip, fp) →
      readScaleWeight (some text) r = decValue ip fp ∧ 0 ≤ decValue ip fp) ∧
    (firstNumMatch text = none → readScaleWeight (some text) r = simulatedWeight r) ∧
    firstNumMatch ('-' :: text) = firstNumMatch text ∧
    firstNumMatch ('+' :: text) = firstNumMatch text ∧
    readScaleWeight none r = simulatedWeight r := by
  refine ⟨?_, ?_, ?_, ?_, rfl⟩
  · intro ip fp h
    refine ⟨by simp [readScaleWeight, h], ?_⟩
    unfold decValue
    positivity
  · intro h
    simp [readScaleWeight, h]
  · simp [firstNumMatch, (by decide : Char.isDigit '-' = false)]
  · simp [firstNumMatch, (by decide : Char.isDigit '+' = false)]

/-- Witness for the amended C7 at the payload `"-12.5"`. -/
theorem readScaleWeight_amended_witness :
    firstNumMatch ['-', '1', '2', '.', '5'] = some (['1', '2'], ['5']) ∧
    readScaleWeight (some ['-', '1', '2', '.', '5']) 0 = decValue ['1', '2'] ['5'] ∧
    0 ≤ decValue ['1', '2'] ['5'] :=
  ⟨by decide,
    ((readScaleWeight_amended ['-', '1', '2', '.', '5'] 0).1 ['1', '2'] ['5']
      (by decide)).1,
    ((readScaleWeight_amended ['-', '1', '2', '.', '5'] 0).1 ['1', '2'] ['5']
      (by decide)).2⟩

/-- C10 counterexample.  The random draw `r = 0.99975` is in `[0, 1)` but
`(r * 20 + 10).toFixed(2)` rounds `29.995` up to `30.00`, so the simulated
reading is exactly 30, outside the claimed interval `[10, 30)`. -/
theorem simulated_range_counterexample :
    ((0 : ℚ) ≤ 3999 / 4000 ∧ (3999 / 4000 : ℚ) < 1) ∧
    simulatedWeight (3999 / 4000) = 30 ∧
    ¬ simulatedWeight (3999 / 4000) < 30 := by
  have h : simulatedWeight (3999 / 4000) = 30 := by
    norm_num [simulatedWeight, round_eq]
  exact ⟨⟨by norm_num, by norm_num⟩, h, by rw [h]; exact lt_irrefl 30⟩

/-- C10 amended.  For every draw `r ∈ [0, 1)`, the simulated reading lies in
the closed interval `[10, 30]` (30 itself is reached when rounding up) and
has at most two decimal digits. -/
theorem simulated_range_amended (r : ℚ) (h0 : 0 ≤ r) (h1 : r < 1) :
    10 ≤ simulatedWeight r ∧ simulatedWeight r ≤ 30 ∧
    ∃ z : ℤ, simulatedWeight r = (z : ℚ) / 100 := by
  have hlb : (1000 : ℤ) ≤ round ((r * 20 + 10) * 100) := by
    rw [round_eq]
    refine Int.le_floor.mpr ?_
    push_cast
    nlinarith
  have hub : round ((r * 20 + 10) * 100) ≤ 3000 := by
    rw [round_eq]
    have h2 : ((r * 20 + 10) * 100 + 1 / 2 : ℚ) < 3001 := by nlinarith
    have h3 := Int.floor_lt.mpr (by push_cast; linarith : ((r * 20 + 10) * 100 + 1 / 2 : ℚ) < ((3001 : ℤ) : ℚ))
    omega
  refine ⟨?_, ?_, ⟨round ((r * 20 + 10) * 100), rfl⟩⟩
  · unfold simulatedWeight
    rw [le_div_iff₀ (by norm_num : (0 : ℚ) < 100)]
    calc (10 : ℚ) * 100 = ((1000 : ℤ) : ℚ) := by norm_num
      _ ≤ _ := by exact_mod_cast hlb
  · unfold simulatedWeight
    rw [div_le_iff₀ (by norm_num : (0 : ℚ) < 100)]
    calc ((round ((r * 20 + 10) * 100) : ℤ) : ℚ) ≤ ((3000 : ℤ) : ℚ) := by
          exact_mod_cast hub
      _ = 30 * 100 := by norm_num

/-- Witness for the amended C10 at the draw `r = 0`. -/
theorem simulated_range_amended_witness :
    ((0 : ℚ) ≤ 0 ∧ (0 : ℚ) < 1) ∧
    10 ≤ simulatedWeight 0 ∧ simulatedWeight 0 ≤ 30 ∧
    ∃ z : ℤ, simulatedWeight 0 = (z : ℚ) / 100 :=
  ⟨⟨le_refl 0, by norm_num⟩, simulated_range_amended 0 (le_refl 0) (by norm_num)⟩

section FreshLemmas

theorem filter_fresh_weight (l : List WeightEntry) (eid : String)
    (h : eid ∉ l.map WeightEntry.id) :
    l.filter (fun e => e.id != eid) = l :=
  List.filter_eq_self.mpr fun e he =>
    bne_iff_ne.mpr fun heq => h (List.mem_map.mpr ⟨e, he, heq⟩)

theorem filter_fresh_mortality (l : List MortalityEntry) (eid : String)
    (h : eid ∉ l.map MortalityEntry.id) :
    l.filter (fun e => e.id != eid) = l :=
  List.filter_eq_self.mpr fun e he =>
    bne_iff_ne.mpr fun heq => h (List.mem_map.mpr ⟨e, he, heq⟩)

/-- Removing an entry id that is not present leaves the sale unchanged. -/
theorem removeEntry_fresh (ty : EntryType) (eid : String) (s : Sale)
    (h : eid ∉ saleEntryIds ty s) : removeEntry ty eid s = s := by
  by_cases hl : s.isCompleted
  · exact removeEntry_locked ty eid s hl
  · cases ty with
    | FULL =>
      simp only [saleEntryIds] at h
      unfold removeEntry
      rw [if_neg hl]
      show { s with fullCrates := s.fullCrates.filter (fun e => e.id != eid) } = s
      rw [filter_fresh_weight s.fullCrates eid h]
    | EMPTY =>
      simp only [saleEntryIds] at h
      unfold removeEntry
      rw [if_neg hl]
      show { s with emptyCrates := s.emptyCrates.filter (fun e => e.id != eid) } = s
      rw [filter_fresh_weight s.emptyCrates eid h]
    | MORTALITY =>
      simp only [saleEntryIds] at h
      unfold removeEntry
      rw [if_neg hl]
      show { s with mortality := s.mortality.filter (fun e => e.id != eid) } = s
      rw [filter_fresh_mortality s.mortality eid h]

/-- Appending a fresh entry and then removing it restores the sale. -/
theorem removeEntry_appendEntry (ty : EntryType) (w : ℚ) (c : ℤ) (eid : String)
    (ts : ℤ) (s : Sale) (h : eid ∉ saleEntryIds ty s) :
    removeEntry ty eid (appendEntry ty w c eid ts s) = s := by
  by_cases hl : s.isCompleted
  · rw [appendEntry_locked ty w c eid ts s hl, removeEntry_locked ty eid s hl]
  · rcases s with ⟨a, b, tc, ca, fc, ec, mo, ic⟩
    have hic : ic = false := by simpa using hl
    subst hic
    cases ty with
    | FULL =>
      simp only [saleEntryIds] at h
      simp [appendEntry, removeEntry, filter_fresh_weight fc eid h]
    | EMPTY =>
      simp only [saleEntryIds] at h
      simp [appendEntry, removeEntry, filter_fresh_weight ec eid h]
    | MORTALITY =>
      simp only [saleEntryIds] at h
      simp [appendEntry, removeEntry, filter_fresh_mortality mo eid h]

end FreshLemmas

/-- C6.  Adding an entry of any kind with a fresh id to an open (or even
locked) sale and then deleting that entry by id restores the provider
exactly — in particular, recomputing `calculateSaleMetrics` for every sale
gives the metrics of the original ledger, as if the entry had never been
added.  This also covers the case where the addition was rejected. -/
theorem add_then_delete_metrics (p : Provider) (sid : String) (ty : EntryType)
    (w : ℚ) (c : ℤ) (eid : String) (ts : ℤ) (cpc : ℤ)
    (hfresh : ∀ s ∈ p.sales, eid ∉ saleEntryIds ty s) :
    deleteEntry ((addWeight p sid ty w c eid ts).1) sid ty eid = p ∧
    (deleteEntry ((addWeight p sid ty w c eid ts).1) sid ty eid).sales.map
        (fun s => calculateSaleMetrics s cpc)
      = p.sales.map (fun s => calculateSaleMetrics s cpc) := by
  have hmain : deleteEntry ((addWeight p sid ty w c eid ts).1) sid ty eid = p := by
    rcases addWeight_fst_eq_or p sid ty w c eid ts with h | h <;> rw [h]
    · unfold deleteEntry
      rw [map_update_eq_self p.sales sid _
        (fun s hs _ => removeEntry_fresh ty eid s (hfresh s hs))]
    · have hsales : ∀ s ∈ p.sales,
          (if ((if s.id == sid then appendEntry ty w c eid ts s else s).id == sid)
            then removeEntry ty eid (if s.id == sid then appendEntry ty w c eid ts s else s)
            else (if s.id == sid then appendEntry ty w c eid ts s else s)) = s := by
        intro s hs
        by_cases hid : s.id = sid
        · rw [if_pos (beq_iff_eq.mpr hid), if_pos (by rw [appendEntry_id]; exact beq_iff_eq.mpr hid)]
          exact removeEntry_appendEntry ty w c eid ts s (hfresh s hs)
        · have hinner : (if s.id == sid then appendEntry ty w c eid ts s else s) = s :=
            if_neg (by simpa using hid)
          rw [hinner, if_neg (by simpa using hid)]
      rcases p with ⟨pid, pname, pinit, pcpc, pcr, psales⟩
      simp only [deleteEntry, commitAdd, List.map_map]
      congr 1
      calc psales.map _ = psales.map id :=
            List.map_congr_left (by simpa [Function.comp] using hsales)
        _ = psales := List.map_id psales
  exact ⟨hmain, by rw [hmain]⟩

/-- Witness for C6: adding and deleting a fresh Full entry on the sample
provider restores it. -/
theorem add_then_delete_metrics_witness :
    (∀ s ∈ sampleProvider.sales, "f9" ∉ saleEntryIds .FULL s) ∧
    deleteEntry ((addWeight sampleProvider "s1" .FULL 10 5 "f9" 9).1)
      "s1" .FULL "f9" = sampleProvider :=
  ⟨by decide,
    (add_then_delete_metrics sampleProvider "s1" .FULL 10 5 "f9" 9 9 (by decide)).1⟩

section FrameLemmas

theorem saleFrame_refl (sid : String) (ty : EntryType) (s : Sale) :
    saleFrame sid ty s s :=
  ⟨rfl, rfl, rfl, rfl, rfl, fun _ => rfl, fun _ => rfl, fun _ => rfl, fun _ => rfl⟩

theorem forall₂_map_self {R : Sale → Sale → Prop} (l : List Sale) (g : Sale → Sale)
    (h : ∀ s, R s (g s)) : List.Forall₂ R l (l.map g) := by
  induction l with
  | nil => exact List.Forall₂.nil
  | cons x xs ih => exact List.Forall₂.cons (h x) ih

theorem saleFrame_update_append (sid : String) (ty : EntryType) (w : ℚ) (c : ℤ)
    (eid : String) (ts : ℤ) (s : Sale) :
    saleFrame sid ty s (if s.id == sid then appendEntry ty w c eid ts s else s) := by
  by_cases hid : s.id = sid
  · rw [if_pos (beq_iff_eq.mpr hid)]
    by_cases hl : s.isCompleted
    · rw [appendEntry_locked ty w c eid ts s hl]
      exact saleFrame_refl sid ty s
    · cases ty <;> simp [saleFrame, appendEntry, hl, hid]
  · rw [if_neg (by simpa using hid)]
    exact saleFrame_refl sid ty s

theorem saleFrame_update_remove (sid : String) (ty : EntryType) (eid : String)
    (s : Sale) :
    saleFrame sid ty s (if s.id == sid then removeEntry ty eid s else s) := by
  by_cases hid : s.id = sid
  · rw [if_pos (beq_iff_eq.mpr hid)]
    by_cases hl : s.isCompleted
    · rw [removeEntry_locked ty eid s hl]
      exact saleFrame_refl sid ty s
    · cases ty <;> simp [saleFrame, removeEntry, hl, hid]
  · rw [if_neg (by simpa using hid)]
    exact saleFrame_refl sid ty s

end FrameLemmas

/-- C9.  `addWeight` and `deleteEntry` targeting sale `sid` with kind `ty`
change at most that sale's entry list of that kind: the provider's own
fields are untouched, every sale keeps its identity and bookkeeping fields
and its other two entry lists, and any sale with a different id is untouched
entirely — whether the operation was accepted or rejected. -/
theorem frame_spec (p : Provider) (sid : String) (ty : EntryType) (w : ℚ)
    (c : ℤ) (eid : String) (ts : ℤ) (did : String) :
    ((addWeight p sid ty w c eid ts).1.id = p.id ∧
      (addWeight p sid ty w c eid ts).1.name = p.name ∧
      (addWeight p sid ty w c eid ts).1.initialFullCrates = p.initialFullCrates ∧
      (addWeight p sid ty w c eid ts).1.chickensPerCrate = p.chickensPerCrate ∧
      (addWeight p sid ty w c eid ts).1.createdAt = p.createdAt) ∧
    List.Forall₂ (saleFrame sid ty) p.sales ((addWeight p sid ty w c eid ts).1).sales ∧
    ((deleteEntry p sid ty did).id = p.id ∧
      (deleteEntry p sid ty did).name = p.name ∧
      (deleteEntry p sid ty did).initialFullCrates = p.initialFullCrates ∧
      (deleteEntry p sid ty did).chickensPerCrate = p.chickensPerCrate ∧
      (deleteEntry p sid ty did).createdAt = p.createdAt) ∧
    List.Forall₂ (saleFrame sid ty) p.sales (deleteEntry p sid ty did).sales := by
  refine ⟨?_, ?_, ⟨rfl, rfl, rfl, rfl, rfl⟩, ?_⟩
  · rcases addWeight_fst_eq_or p sid ty w c eid ts with h | h <;> rw [h] <;>
      exact ⟨rfl, rfl, rfl, rfl, rfl⟩
  · rcases addWeight_fst_eq_or p sid ty w c eid ts with h | h <;> rw [h]
    · have := forall₂_map_self p.sales id (fun s => saleFrame_refl sid ty s)
      rwa [List.map_id] at this
    · exact forall₂_map_self p.sales _
        (fun s => saleFrame_update_append sid ty w c eid ts s)
  · exact forall₂_map_self p.sales _ (fun s => saleFrame_update_remove sid ty did s)

/-- Witness for C9: concrete frame facts at the sample provider. -/
theorem frame_spec_witness :
    (addWeight sampleProvider "s1" .MORTALITY 2 1 "m9" 9).1.name
        = sampleProvider.name ∧
    (deleteEntry sampleProvider "s1" .MORTALITY "m1").initialFullCrates
        = sampleProvider.initialFullCrates :=
  ⟨(frame_spec sampleProvider "s1" .MORTALITY 2 1 "m9" 9 "m1").1.2.1,
    (frame_spec sampleProvider "s1" .MORTALITY 2 1 "m9" 9 "m1").2.2.1.2.2.1⟩

section StripLemmas

theorem stripControl_append (a b : List Char) :
    stripControl (a ++ b) = stripControl a ++ stripControl b := by
  simp [stripControl, replaceAll, List.filter_append]

/-- Every character surviving the preview stripping is neither ESC nor GS. -/
theorem mem_stripControl (l : List Char) (ch : Char) (h : ch ∈ stripControl l) :
    ch ≠ ESC ∧ ch ≠ GS := by
  simp only [stripControl, replaceAll, List.mem_filter] at h
  exact ⟨by simpa using h.1.2, by simpa using h.2⟩

/-- The stripped form of a stream that begins with the newline and the
`ALIGN_CENTER` directive starts with the directive residue `a\x01`. -/
theorem stripControl_take3 (l : List Char) :
    (stripControl ("\n".toList ++ (COMMANDS.CENTER ++ l))).take 3
      = ['\n', 'a', '\x01'] := by
  rw [stripControl_append, stripControl_append,
    (by decide : stripControl "\n".toList = ['\n']),
    (by decide : stripControl COMMANDS.CENTER = ['a', '\x01'])]
  rfl

end StripLemmas

/-- C8 counterexample.  For the sample sale and provider, the preview
obtained by the implemented stripping (deleting only the ESC and GS bytes)
differs from the plain-text rendering the claim promises: the directive
parameter bytes (for example `a\x01` from `ALIGN_CENTER`) remain. -/
theorem ticket_preview_counterexample :
    stripControl (generateTicket sampleSale sampleProvider [])
      ≠ plainTicket sampleSale sampleProvider [] := by
  decide

/-- C8 amended.  The preview stripping removes exactly the ESC and GS bytes:
no ESC or GS remains in the preview of any generated ticket, but the
parameter bytes of the embedded directives survive — every per-client
ticket and provider summary preview still begins with the `a\x01` residue of
its leading `ALIGN_CENTER` directive rather than with plain text. -/
theorem ticket_preview_amended (sale : Sale) (provider : Provider) (date : List Char) :
    (∀ ch ∈ stripControl (generateTicket sale provider date), ch ≠ ESC ∧ ch ≠ GS) ∧
    (∀ ch ∈ stripControl (generateProviderSummary provider date), ch ≠ ESC ∧ ch ≠ GS) ∧
    (stripControl (generateTicket sale provider date)).take 3 = ['\n', 'a', '\x01'] ∧
    (stripControl (generateProviderSummary provider date)).take 3
      = ['\n', 'a', '\x01'] := by
  refine ⟨fun ch h => mem_stripControl _ ch h, fun ch h => mem_stripControl _ ch h,
    ?_, ?_⟩
  · simp only [generateTicket, List.append_assoc]
    exact stripControl_take3 _
  · simp only [generateProviderSummary, List.append_assoc]
    exact stripControl_take3 _

/-- Witness for the amended C8 at the sample ticket. -/
theorem ticket_preview_amended_witness :
    ('P' ∈ stripControl (generateTicket sampleSale sampleProvider []) ∧
      'P' ≠ ESC ∧ 'P' ≠ GS) ∧
    (stripControl (generateTicket sampleSale sampleProvider [])).take 3
      = ['\n', 'a', '\x01'] :=
  ⟨⟨by decide,
    (ticket_preview_amended sampleSale sampleProvider []).1 'P' (by decide)⟩,
    (ticket_preview_amended sampleSale sampleProvider []).2.2.1⟩

end JBarsa
